import Mathlib

/-!
Verification development for the multi-source English word-list builder.

The repository consists of three Python files:
* `trie.py` — a character trie (`TrieNode.insert`),
* `validate_words.py` — loading a pickled trie, filtering query tokens and
  membership lookup (`is_in_trie`),
* `compile_all_english_words.py` — aggregation of several word sources into one
  canonical vocabulary, its sorted text output, trie construction and pickling.

Words are modelled as `List Char`; Python `dict`s of children become ordered
association lists (first-match lookup, in-place overwrite, append of new keys),
Python `set`s become `Finset`s, and fallible steps return `Except`/`Option`.
-/

set_option autoImplicit false

abbrev Word := List Char

/-- From `is_pure_alpha` in compile_all_english_words.py: a single character in
the 26 lowercase letters a–z. -/
def isLowerAZ (c : Char) : Bool := 'a' ≤ c && c ≤ 'z'

/-- From `is_pure_alpha` in compile_all_english_words.py: full-match of the
regex [a-z]+, i.e. non-empty and every character in a–z. -/
def is_pure_alpha (w : Word) : Bool := !w.isEmpty && w.all isLowerAZ

mutual

/-- From `trie.py`: a `TrieNode` holds a children mapping (single char → child)
and an `is_word` flag. -/
inductive TrieNode : Type where
  | mk : Children → Bool → TrieNode

/-- The children mapping of a `TrieNode`, modelling a Python `dict` as an
ordered association list of (letter, child) pairs with distinct keys looked up
by first match. -/
inductive Children : Type where
  | nil : Children
  | cons : Char → TrieNode → Children → Children

end

/-- The `children` attribute of a trie node. -/
def TrieNode.children : TrieNode → Children
  | .mk cs _ => cs

/-- The `is_word` attribute of a trie node. -/
def TrieNode.is_word : TrieNode → Bool
  | .mk _ b => b

/-- Dictionary lookup `node.children[ch]` (with `ch in node.children` test). -/
def Children.lookup : Children → Char → Option TrieNode
  | .nil, _ => none
  | .cons k v rest, c => if k = c then some v else rest.lookup c

/-- Dictionary write `node.children[ch] = n`: overwrite in place when the key
is present, append otherwise (Python dicts keep insertion order). -/
def Children.set : Children → Char → TrieNode → Children
  | .nil, c, t => .cons c t .nil
  | .cons k v rest, c, t =>
    if k = c then .cons k t rest else .cons k v (rest.set c t)

/-- A freshly constructed `TrieNode()`: no children, flag false. -/
def TrieNode.empty : TrieNode := .mk .nil false

/-- From `trie.py`, `TrieNode.insert`: walk the word character by character,
creating a fresh empty node for each missing transition, and set the terminal
node's `is_word` flag. -/
def TrieNode.insert : TrieNode → Word → TrieNode
  | t, [] => .mk t.children true
  | t, c :: cs =>
    let child := (t.children.lookup c).getD .empty
    .mk (t.children.set c (child.insert cs)) t.is_word

/-- From `validate_words.py`, `is_in_trie`: follow each character of the word
through the children mappings; a missing transition yields `false`, otherwise
the final node's `is_word` flag is returned (the empty word reads the root's
flag). -/
def is_in_trie : TrieNode → Word → Bool
  | t, [] => t.is_word
  | t, c :: cs =>
    match t.children.lookup c with
    | some n => is_in_trie n cs
    | none => false

/-- From `compile_all_english_words.py` `main` (step 9): start from a fresh
root and insert every vocabulary word. -/
def buildTrie (ws : List Word) : TrieNode := ws.foldl TrieNode.insert .empty
/-! ### Serialization

The repository serializes the trie with Python's `pickle` module
(`pickle.dump` in compile_all_english_words.py, `pickle.load` in
validate_words.py); the byte-level encoding therefore lives outside `src/`.
Following the spec's serialization contract (§4.2, §6): a one-byte
magic/version marker `0x80` at the start, a terminator byte `0x2E` (ASCII '.')
at the end, and in between a self-describing depth-first encoding of every
node's word flag and (letter → child) edges. -/

/-- Number of entries of a children mapping. -/
def childCount : Children → Nat
  | .nil => 0
  | .cons _ _ rest => childCount rest + 1

mutual

/-- Modelled from the spec: the body encoding of one trie node — word flag,
number of children, then each edge as its letter followed by the child's
encoding, depth first.  (The concrete byte layout of `pickle` is not part of
`src/`; the spec only requires a self-describing reconstruction of every
node's child mapping and word flag.) -/
def encodeNode : TrieNode → List Nat
  | .mk cs b => (if b then 1 else 0) :: childCount cs :: encodeChildren cs

/-- Modelled from the spec: encoding of a children mapping, edge by edge. -/
def encodeChildren : Children → List Nat
  | .nil => []
  | .cons c t rest => c.toNat :: (encodeNode t ++ encodeChildren rest)

end

mutual

/-- Structural size of a node, used as parsing fuel bound. -/
def sizeN : TrieNode → Nat
  | .mk cs _ => sizeC cs + 1

/-- Structural size of a children mapping. -/
def sizeC : Children → Nat
  | .nil => 0
  | .cons _ t rest => sizeN t + sizeC rest + 1

end

mutual

/-- Modelled from the spec: parse one node from the stream, returning the node
and the unconsumed remainder; `none` on malformed input. -/
def parseNode : Nat → List Nat → Option (TrieNode × List Nat)
  | 0, _ => none
  | _ + 1, [] => none
  | _ + 1, [_] => none
  | fuel + 1, b :: n :: rest =>
    match parseChildren fuel n rest with
    | some (cs, rest') => some (.mk cs (b == 1), rest')
    | none => none

/-- Modelled from the spec: parse a given number of child edges. -/
def parseChildren : Nat → Nat → List Nat → Option (Children × List Nat)
  | _, 0, rest => some (.nil, rest)
  | 0, _ + 1, _ => none
  | _ + 1, _ + 1, [] => none
  | fuel + 1, n + 1, c :: rest =>
    match parseNode fuel rest with
    | some (t, r1) =>
      match parseChildren fuel n r1 with
      | some (cs, r2) => some (.cons (Char.ofNat c) t cs, r2)
      | none => none
    | none => none

end

/-- Modelled from the spec: `serialize` — magic byte, node encoding,
terminator byte. -/
def serialize (t : TrieNode) : List Nat := 128 :: (encodeNode t ++ [46])

/-- The structural-marker check: leading magic byte `0x80` and trailing
terminator byte `0x2E` ('.').  This is exactly the check `main` performs on
the freshly written stream (compile_all_english_words.py lines 479–487). -/
def markersOk (s : List Nat) : Bool := s.head? == some 128 && s.getLast? == some 46

/-- Modelled from the spec: `deserialize` — reject any stream whose markers do
not match or whose body cannot be parsed back into a trie exactly. -/
def deserialize (s : List Nat) : Option TrieNode :=
  if markersOk s then
    match s with
    | [] => none
    | _ :: rest =>
      match parseNode rest.length rest with
      | some (t, [46]) => some t
      | _ => none
  else none

/-- From `validate_words.py` `load_trie`: a stream that cannot be turned back
into a trie is a hard failure (`sys.exit(1)`); on success the root is
returned. -/
def load_trie (s : List Nat) : Except String TrieNode :=
  match deserialize s with
  | some t => .ok t
  | none => .error "Error loading trie"

/-- From `compile_all_english_words.py` `main` (lines 479–487): after writing,
re-read the stream and compare its markers; a mismatch only raises a warning
flag — the stream is kept and the run continues either way. -/
def writerSelfCheck (s : List Nat) : List Nat × Bool := (s, !markersOk s)

/-- The serialization step of `main`: write the stream, then self-check it. -/
def mainSerializeStep (t : TrieNode) : List Nat × Bool := writerSelfCheck (serialize t)


/-! ### Python string primitives

`validate_words.py` and the loaders in `compile_all_english_words.py` call the
Python built-ins `str.strip`, `str.rstrip`, `str.lower` and `str.isalpha`.
They are modelled here exactly for the Latin-1 range (code points ≤ 0xFF),
which covers every concrete text these theorems evaluate. -/

/-- Python `str.isspace` per character, exact on the Latin-1 range: ASCII
whitespace, the separator controls 0x1C–0x1F, NEL 0x85 and NBSP 0xA0. -/
def pythonIsSpace (c : Char) : Bool :=
  c = ' ' || c = '\t' || c = '\n' || c = '\r' || c.toNat = 0x0B || c.toNat = 0x0C ||
  (0x1C ≤ c.toNat && c.toNat ≤ 0x1F) || c.toNat = 0x85 || c.toNat = 0xA0

/-- Python `str.lower` per character, exact on the Latin-1 range: A–Z and À–Þ
(except the multiplication sign ×) move 32 code points up; everything else is
unchanged. -/
def pythonLowerChar (c : Char) : Char :=
  if 'A' ≤ c && c ≤ 'Z' then Char.ofNat (c.toNat + 32)
  else if 0xC0 ≤ c.toNat && c.toNat ≤ 0xDE && c.toNat ≠ 0xD7 then Char.ofNat (c.toNat + 32)
  else c

/-- Python `str.lower` on a word. -/
def pythonLower (s : Word) : Word := s.map pythonLowerChar

/-- Python `str.isalpha` per character, exact on the Latin-1 range: ASCII
letters, ª, µ, º and the accented letters À–ÿ except × and ÷. -/
def pythonIsAlphaChar (c : Char) : Bool :=
  ('a' ≤ c && c ≤ 'z') || ('A' ≤ c && c ≤ 'Z') ||
  c.toNat = 0xAA || c.toNat = 0xB5 || c.toNat = 0xBA ||
  (0xC0 ≤ c.toNat && c.toNat ≤ 0xFF && c.toNat ≠ 0xD7 && c.toNat ≠ 0xF7)

/-- Python `str.isalpha` on a word: non-empty and every character
alphabetic. -/
def pythonIsAlpha (s : Word) : Bool := !s.isEmpty && s.all pythonIsAlphaChar

/-- Python `str.strip()` with no argument: drop leading and trailing
whitespace. -/
def pythonStrip (s : Word) : Word :=
  ((s.dropWhile pythonIsSpace).reverse.dropWhile pythonIsSpace).reverse

/-- Python `line.rstrip("\n\r")` / `line.rstrip("\r\n")`: drop trailing
newline characters. -/
def rstripNewline (s : Word) : Word :=
  (s.reverse.dropWhile (fun c => c = '\n' || c = '\r')).reverse

/-! ### The validator's token filter (validate_words.py) -/

/-- From `validate_words.py`, `load_words_to_validate`: for each line, drop
the trailing newline, strip whitespace and lowercase; skip a blank result,
skip (with a printed warning) a result failing Python `str.isalpha`, and keep
everything else. -/
def load_words_to_validate (lines : List Word) : List Word :=
  lines.filterMap (fun line =>
    let w := pythonLower (pythonStrip (rstripNewline line))
    if w.isEmpty then none
    else if !pythonIsAlpha w then none
    else some w)

/-- From `validate_words.py`, `main` (step 3): query every kept token against
the trie, pairing it with the membership answer. -/
def validateWords (root : TrieNode) (lines : List Word) : List (Word × Bool) :=
  (load_words_to_validate lines).map (fun w => (w, is_in_trie root w))

/-! ### Vocabulary aggregation (compile_all_english_words.py, main) -/

/-- From `main` ("Union all sources"): fold set-union over the word sets in
their fixed order, starting from an empty accumulator. -/
def unionSources (sources : List (Finset Word)) : Finset Word :=
  sources.foldl (fun acc s => acc ∪ s) ∅

/-- From `main` (lines 441–451): raise `RuntimeError` when the union is empty
— this check runs before the omit words are removed — then remove the omit
words (`difference_update`, guarded by the omit set being non-empty). -/
def mainAggregate (sources : List (Finset Word)) (omits : Finset Word) :
    Except String (Finset Word) :=
  let total := unionSources sources
  if total = ∅ then
    .error "Final union is empty; no words were loaded from any source."
  else
    .ok (if omits = ∅ then total else total \ omits)

/-- From `main` (step 8): the text artifact's lines, `sorted(total_union)` —
one word per line in lexicographic codepoint order. -/
def outputLines (vocab : Finset Word) : List Word :=
  vocab.sort (· ≤ ·)

/-! ### Source loaders and their failure policy -/

/-- From `load_linux_dict_words`: the set of stripped, lowercased, pure a–z
lines of /usr/share/dict/words. -/
def linuxWordSet (lines : List Word) : Finset Word :=
  (lines.filterMap (fun line =>
    let w := pythonLower (pythonStrip line)
    if !w.isEmpty && is_pure_alpha w then some w else none)).toFinset

/-- From `load_linux_dict_words`: a missing file is skipped (empty set); a
file with no valid entries is likewise skipped (empty set); otherwise the word
set is returned.  There is no failure path. -/
def load_linux_dict_words (file : Option (List Word)) : Finset Word :=
  match file with
  | none => ∅
  | some lines =>
    let words := linuxWordSet lines
    if words = ∅ then ∅ else words

/-- From `load_moby_words`: a stripped line starting the
"1. Standard English Words" section. -/
def isStartLine (ln : Word) : Bool :=
  "1. Standard English Words".toList.isPrefixOf (pythonStrip ln)

/-- From `load_moby_words`: the section-2 header pattern
(leading whitespace, "2.", at least one whitespace character, then
"Hyphenated Words" in any letter case, anchored at the start). -/
def isSection2 (ln : Word) : Bool :=
  match ln.dropWhile pythonIsSpace with
  | '2' :: '.' :: r2 =>
    (match r2 with
     | c :: _ => pythonIsSpace c
     | [] => false)
    && "hyphenated words".toList.isPrefixOf (pythonLower (r2.dropWhile pythonIsSpace))
  | _ => false

/-- From `load_moby_words`: collect words once the section has started — stop
at the first blank line or at the section-2 header; lowercase and keep pure
a–z entries. -/
def mobyBody : List Word → Finset Word
  | [] => ∅
  | line :: rest =>
    let ln := rstripNewline line
    if (pythonStrip ln).isEmpty then ∅
    else if isSection2 ln then ∅
    else
      let w := pythonLower (pythonStrip ln)
      if !w.isEmpty && is_pure_alpha w then insert w (mobyBody rest) else mobyBody rest

/-- From `load_moby_words`: skip lines until the section-start marker, then
collect the section body (the marker line itself is consumed). -/
def mobyCollect : List Word → Finset Word
  | [] => ∅
  | line :: rest =>
    if isStartLine (rstripNewline line) then mobyBody rest else mobyCollect rest

/-- From `load_moby_words`: no `--moby-file` argument yields the empty set
without error; a supplied but missing file, and a supplied file whose
Standard English Words section yields no valid word, are `RuntimeError`s. -/
def load_moby_words : Option (Option (List Word)) → Except String (Finset Word)
  | none => .ok ∅
  | some none => .error "Moby loader error: file not found"
  | some (some lines) =>
    let words := mobyCollect lines
    if words = ∅ then
      .error "Moby loader error: no valid words found in Standard English Words section"
    else .ok words

/-- From `main` (the try block): the six loaders run in order; each of the
four required loaders is modelled by the `Except` value its collaborator
produced (network retrieval and corpus parsing are out-of-scope
collaborators), and any error propagates uncaught, aborting the whole
aggregation. -/
def runSources (dwyl scowl wordnet wfreq : Except String (Finset Word))
    (linuxFile : Option (List Word)) (mobyArg : Option (Option (List Word))) :
    Except String (List (Finset Word)) :=
  match dwyl with
  | .error e => .error e
  | .ok d =>
    match scowl with
    | .error e => .error e
    | .ok s =>
      match wordnet with
      | .error e => .error e
      | .ok wn =>
        match wfreq with
        | .error e => .error e
        | .ok wf =>
          let lx := load_linux_dict_words linuxFile
          match load_moby_words mobyArg with
          | .error e => .error e
          | .ok mb => .ok [d, s, wn, wf, lx, mb]

theorem children_mk (cs : Children) (b : Bool) : (TrieNode.mk cs b).children = cs := rfl

theorem is_word_mk (cs : Children) (b : Bool) : (TrieNode.mk cs b).is_word = b := rfl

theorem insert_nil (t : TrieNode) : t.insert [] = .mk t.children true := rfl

theorem insert_cons (t : TrieNode) (c : Char) (cs : Word) :
    t.insert (c :: cs) =
      .mk (t.children.set c (((t.children.lookup c).getD .empty).insert cs)) t.is_word := rfl

theorem is_in_trie_nil (t : TrieNode) : is_in_trie t [] = t.is_word := rfl

theorem is_in_trie_cons (t : TrieNode) (c : Char) (cs : Word) :
    is_in_trie t (c :: cs) =
      match t.children.lookup c with
      | some n => is_in_trie n cs
      | none => false := rfl

theorem lookup_set_self : ∀ (cs : Children) (c : Char) (t : TrieNode),
    (cs.set c t).lookup c = some t
  | .nil, c, t => by simp [Children.set, Children.lookup]
  | .cons k v rest, c, t => by
    by_cases h : k = c <;>
      simp [Children.set, Children.lookup, h, lookup_set_self rest c t]

theorem lookup_set_ne : ∀ (cs : Children) (c d : Char) (t : TrieNode),
    d ≠ c → (cs.set c t).lookup d = cs.lookup d
  | .nil, c, d, t, h => by simp [Children.set, Children.lookup, Ne.symm h]
  | .cons k v rest, c, d, t, h => by
    by_cases hk : k = c
    · subst hk
      simp [Children.set, Children.lookup, Ne.symm h]
    · simp [Children.set, Children.lookup, hk, lookup_set_ne rest c d t h]

theorem set_set : ∀ (cs : Children) (c : Char) (t u : TrieNode),
    (cs.set c t).set c u = cs.set c u
  | .nil, c, t, u => by simp [Children.set]
  | .cons k v rest, c, t, u => by
    by_cases h : k = c <;> simp [Children.set, h, set_set rest c t u]

theorem is_in_trie_empty (v : Word) : is_in_trie TrieNode.empty v = false := by
  cases v <;> simp [is_in_trie, TrieNode.empty, TrieNode.is_word,
    TrieNode.children, Children.lookup]

/-- Membership after one insertion: the inserted word becomes a member and
every other query keeps its old answer. -/
theorem is_in_trie_insert : ∀ (w : Word) (t : TrieNode) (v : Word),
    is_in_trie (t.insert w) v = true ↔ v = w ∨ is_in_trie t v = true := by
  intro w
  induction w with
  | nil =>
    intro t v
    cases v with
    | nil => simp [insert_nil, is_in_trie_nil, is_word_mk]
    | cons c cs => simp [insert_nil, is_in_trie_cons, children_mk]
  | cons a as ih =>
    intro t v
    cases v with
    | nil => simp [insert_cons, is_in_trie_nil, is_word_mk]
    | cons c cs =>
      by_cases hc : c = a
      · subst hc
        rw [insert_cons, is_in_trie_cons, children_mk, lookup_set_self, ih,
          is_in_trie_cons]
        cases hl : (t.children).lookup c with
        | some n => simp [hl]
        | none => simp [hl, is_in_trie_empty]
      · rw [insert_cons, is_in_trie_cons, children_mk,
          lookup_set_ne _ _ _ _ hc, is_in_trie_cons]
        simp [hc]

theorem is_in_trie_foldl : ∀ (ws : List Word) (t : TrieNode) (v : Word),
    is_in_trie (ws.foldl TrieNode.insert t) v = true ↔
      v ∈ ws ∨ is_in_trie t v = true
  | [], t, v => by simp
  | w :: ws, t, v => by
    rw [List.foldl_cons, is_in_trie_foldl ws (t.insert w) v, is_in_trie_insert]
    constructor
    · rintro (h | h | h) <;> simp [h]
    · intro h
      rcases h with h | h
      · rcases List.mem_cons.mp h with h | h
        · exact Or.inr (Or.inl h)
        · exact Or.inl h
      · exact Or.inr (Or.inr h)

theorem is_in_trie_buildTrie (ws : List Word) (v : Word) :
    is_in_trie (buildTrie ws) v = true ↔ v ∈ ws := by
  rw [buildTrie, is_in_trie_foldl]
  simp [is_in_trie_empty]

/-- Inserting a word twice yields literally the same tree as inserting it
once. -/
theorem insert_insert : ∀ (w : Word) (t : TrieNode),
    (t.insert w).insert w = t.insert w
  | [], t => by rw [insert_nil, insert_nil, children_mk]
  | a :: as, t => by
    rw [insert_cons t a as, insert_cons, children_mk, is_word_mk,
      lookup_set_self, Option.getD_some, insert_insert as, set_set]

mutual

theorem parse_encodeNode : ∀ (t : TrieNode) (fuel : Nat) (rest : List Nat),
    sizeN t ≤ fuel → parseNode fuel (encodeNode t ++ rest) = some (t, rest)
  | .mk cs b, 0, rest, h => by
    simp [sizeN] at h
  | .mk cs b, fuel + 1, rest, h => by
    have hc : sizeC cs ≤ fuel := by
      simp only [sizeN] at h
      omega
    simp only [encodeNode, List.cons_append, parseNode]
    rw [parse_encodeChildren cs fuel rest hc]
    cases b <;> rfl

theorem parse_encodeChildren : ∀ (cs : Children) (fuel : Nat) (rest : List Nat),
    sizeC cs ≤ fuel →
      parseChildren fuel (childCount cs) (encodeChildren cs ++ rest) = some (cs, rest)
  | .nil, fuel, rest, _ => by simp [encodeChildren, childCount, parseChildren]
  | .cons c t rest', 0, rest, h => by
    simp [sizeC] at h
  | .cons c t rest', fuel + 1, rest, h => by
    have h1 : sizeN t ≤ fuel := by
      simp only [sizeC] at h
      omega
    have h2 : sizeC rest' ≤ fuel := by
      simp only [sizeC] at h
      omega
    simp only [encodeChildren, childCount, List.cons_append, List.append_eq,
      List.append_assoc, parseChildren]
    rw [parse_encodeNode t fuel (encodeChildren rest' ++ rest) h1]
    simp [parse_encodeChildren rest' fuel rest h2]

end

mutual

theorem sizeN_le_encodeNode : ∀ t : TrieNode, sizeN t ≤ (encodeNode t).length
  | .mk cs b => by
    have hc := sizeC_le_encodeChildren cs
    simp only [sizeN, encodeNode, List.length_cons]
    omega

theorem sizeC_le_encodeChildren : ∀ cs : Children, sizeC cs ≤ (encodeChildren cs).length
  | .nil => by simp [sizeC, encodeChildren]
  | .cons c t rest => by
    have h1 := sizeN_le_encodeNode t
    have h2 := sizeC_le_encodeChildren rest
    simp only [sizeC, encodeChildren, List.length_cons, List.length_append]
    omega

end

theorem getLast?_serialize (t : TrieNode) :
    (128 :: (encodeNode t ++ [46])).getLast? = some 46 := by
  rw [← List.cons_append]
  exact List.getLast?_concat _

theorem markersOk_serialize (t : TrieNode) : markersOk (serialize t) = true := by
  simp [markersOk, serialize, getLast?_serialize t]

theorem deserialize_serialize (t : TrieNode) : deserialize (serialize t) = some t := by
  have hsize : sizeN t ≤ (encodeNode t ++ [46]).length := by
    have := sizeN_le_encodeNode t
    simp only [List.length_append, List.length_cons, List.length_nil]
    omega
  have hparse := parse_encodeNode t ((encodeNode t ++ [46]).length) [46] hsize
  have hmark : markersOk (128 :: (encodeNode t ++ [46])) = true := by
    simp [markersOk, getLast?_serialize t]
  simp only [deserialize, serialize, hmark, if_true]
  rw [hparse]

theorem mem_foldl_union (sources : List (Finset Word)) :
    ∀ (acc : Finset Word) (w : Word),
      w ∈ sources.foldl (fun a s => a ∪ s) acc ↔ w ∈ acc ∨ ∃ s ∈ sources, w ∈ s := by
  induction sources with
  | nil => intro acc w; simp
  | cons s ss ih =>
    intro acc w
    rw [List.foldl_cons, ih]
    simp only [Finset.mem_union, List.mem_cons]
    constructor
    · rintro ((h | h) | ⟨u, hu, hw⟩)
      · exact Or.inl h
      · exact Or.inr ⟨s, Or.inl rfl, h⟩
      · exact Or.inr ⟨u, Or.inr hu, hw⟩
    · rintro (h | ⟨u, (rfl | hu), hw⟩)
      · exact Or.inl (Or.inl h)
      · exact Or.inl (Or.inr hw)
      · exact Or.inr ⟨u, hu, hw⟩

theorem mem_unionSources (sources : List (Finset Word)) (w : Word) :
    w ∈ unionSources sources ↔ ∃ s ∈ sources, w ∈ s := by
  rw [unionSources, mem_foldl_union]
  simp

/-- C1: a trie built by inserting each word of a canonical vocabulary V into a
fresh root answers the membership query with true exactly on the members of V;
in particular a string that is not in V — such as a mere proper prefix of
inserted words — answers false. -/
theorem buildTrie_membership (V : List Word)
    (hV : ∀ w ∈ V, is_pure_alpha w = true) (q : Word) :
    (is_in_trie (buildTrie V) q = true ↔ q ∈ V)
    ∧ (q ∉ V → is_in_trie (buildTrie V) q = false) := by
  refine ⟨is_in_trie_buildTrie V q, fun hq => ?_⟩
  cases hres : is_in_trie (buildTrie V) q with
  | false => rfl
  | true => exact absurd ((is_in_trie_buildTrie V q).mp hres) hq

theorem buildTrie_membership_witness :
    (∀ w ∈ ["cat".toList, "cart".toList], is_pure_alpha w = true)
    ∧ ((is_in_trie (buildTrie ["cat".toList, "cart".toList]) "ca".toList = true
          ↔ "ca".toList ∈ ["cat".toList, "cart".toList])
       ∧ ("ca".toList ∉ ["cat".toList, "cart".toList] →
          is_in_trie (buildTrie ["cat".toList, "cart".toList]) "ca".toList = false)) :=
  ⟨by decide, buildTrie_membership ["cat".toList, "cart".toList] (by decide) "ca".toList⟩

/-- C2: deserializing the serialization of any trie reproduces the trie
exactly — every node's child mapping and word flag — hence gives the same
membership answer for every query string. -/
theorem serialize_roundTrip (t : TrieNode) :
    deserialize (serialize t) = some t
    ∧ ∀ w : Word,
        (deserialize (serialize t)).map (fun r => is_in_trie r w) = some (is_in_trie t w) := by
  refine ⟨deserialize_serialize t, fun w => ?_⟩
  rw [deserialize_serialize t]
  rfl

/-- C3: when the union of the sources is non-empty, aggregation returns
exactly the union of all word sets minus the omit set, and the persisted text
lines are exactly those words, each once, in lexicographic order. -/
theorem aggregate_union_minus_omit (sources : List (Finset Word)) (omits : Finset Word)
    (h : unionSources sources ≠ ∅) :
    mainAggregate sources omits = .ok (unionSources sources \ omits)
    ∧ (∀ w, w ∈ unionSources sources \ omits ↔ (∃ s ∈ sources, w ∈ s) ∧ w ∉ omits)
    ∧ List.Sorted (· ≤ ·) (outputLines (unionSources sources \ omits))
    ∧ (outputLines (unionSources sources \ omits)).Nodup
    ∧ ∀ w, w ∈ outputLines (unionSources sources \ omits) ↔ w ∈ unionSources sources \ omits := by
  refine ⟨?_, ?_, ?_, ?_, ?_⟩
  · simp only [mainAggregate, if_neg h]
    by_cases ho : omits = ∅
    · subst ho
      simp
    · simp [ho]
  · intro w
    rw [Finset.mem_sdiff, mem_unionSources]
  · exact Finset.sort_sorted _ _
  · exact Finset.sort_nodup _ _
  · intro w
    exact Finset.mem_sort _

theorem aggregate_union_minus_omit_witness :
    unionSources [({"dog".toList, "cat".toList} : Finset Word), {"cat".toList, "fish".toList}] ≠ ∅
    ∧ (mainAggregate [({"dog".toList, "cat".toList} : Finset Word), {"cat".toList, "fish".toList}]
          {"fish".toList}
        = .ok (unionSources [({"dog".toList, "cat".toList} : Finset Word),
            {"cat".toList, "fish".toList}] \ {"fish".toList})
       ∧ (∀ w, w ∈ unionSources [({"dog".toList, "cat".toList} : Finset Word),
              {"cat".toList, "fish".toList}] \ {"fish".toList}
            ↔ (∃ s ∈ [({"dog".toList, "cat".toList} : Finset Word),
                {"cat".toList, "fish".toList}], w ∈ s) ∧ w ∉ ({"fish".toList} : Finset Word))
       ∧ List.Sorted (· ≤ ·) (outputLines (unionSources
            [({"dog".toList, "cat".toList} : Finset Word), {"cat".toList, "fish".toList}]
            \ {"fish".toList}))
       ∧ (outputLines (unionSources [({"dog".toList, "cat".toList} : Finset Word),
            {"cat".toList, "fish".toList}] \ {"fish".toList})).Nodup
       ∧ ∀ w, w ∈ outputLines (unionSources [({"dog".toList, "cat".toList} : Finset Word),
              {"cat".toList, "fish".toList}] \ {"fish".toList})
            ↔ w ∈ unionSources [({"dog".toList, "cat".toList} : Finset Word),
                {"cat".toList, "fish".toList}] \ {"fish".toList}) :=
  ⟨by decide, aggregate_union_minus_omit _ _ (by decide)⟩

/-- C4 counterexample: with the single non-empty source {"cat"} and omit set
{"cat"}, the canonical vocabulary (union minus omit) is empty, yet aggregation
does not fail: the emptiness check precedes omission, so it returns the empty
vocabulary and the pipeline goes on to build a trie from it. -/
theorem aggregate_emptyAfterOmit_counterexample :
    unionSources [({"cat".toList} : Finset Word)] \ ({"cat".toList} : Finset Word) = ∅
    ∧ mainAggregate [({"cat".toList} : Finset Word)] {"cat".toList} = .ok (∅ : Finset Word) :=
  ⟨by decide, rfl⟩

/-- C4 amended: aggregation fails with the fatal empty-union error exactly
when the union of the sources is empty; since that check runs before the omit
words are removed, a non-empty union that the omit set empties out still
succeeds, producing an empty vocabulary. -/
theorem aggregate_empty_union_fatal (sources : List (Finset Word)) (omits : Finset Word) :
    (unionSources sources = ∅ →
      mainAggregate sources omits
        = .error "Final union is empty; no words were loaded from any source.")
    ∧ (unionSources sources ≠ ∅ →
      mainAggregate sources omits = .ok (unionSources sources \ omits)) := by
  constructor
  · intro h
    simp [mainAggregate, h]
  · intro h
    simp only [mainAggregate, if_neg h]
    by_cases ho : omits = ∅
    · subst ho
      simp
    · simp [ho]

theorem aggregate_empty_union_fatal_witness :
    unionSources ([] : List (Finset Word)) = ∅
    ∧ mainAggregate ([] : List (Finset Word)) ∅
        = .error "Final union is empty; no words were loaded from any source." :=
  ⟨by decide, (aggregate_empty_union_fatal [] ∅).1 (by decide)⟩

/-- C5: the validator's token filter evaluated at the failing input: "xyz123"
is skipped and "Cat" is lowercased and queried, as the claim says; but "café",
whose character é lies outside a–z, is not skipped — Python `str.isalpha`
accepts it — and it is queried against the trie, contradicting the function's
own docstring ("return a list of pure a–z words"). -/
theorem validator_filter_eval :
    load_words_to_validate ["Cat".toList, "xyz123".toList, "café".toList, "dog".toList]
      = ["cat".toList, "café".toList, "dog".toList]
    ∧ is_pure_alpha "café".toList = false
    ∧ pythonIsAlpha "café".toList = true
    ∧ validateWords (buildTrie ["cat".toList, "dog".toList])
        ["Cat".toList, "xyz123".toList, "café".toList, "dog".toList]
      = [("cat".toList, true), ("café".toList, false), ("dog".toList, true)] :=
  ⟨by decide, by decide, by decide, by decide⟩

/-- C6: a stream whose structural markers do not match, or which cannot be
parsed into a trie, makes the query-time loader fail hard; the writer's
self-check turns the very same marker mismatch into a warning flag only,
keeping the stream, and the self-check of a freshly written stream passes. -/
theorem artifact_marker_policy :
    (∀ s : List Nat, markersOk s = false → deserialize s = none)
    ∧ (∀ s : List Nat, deserialize s = none → load_trie s = .error "Error loading trie")
    ∧ (∀ s : List Nat, markersOk s = false → writerSelfCheck s = (s, true))
    ∧ (∀ t : TrieNode, mainSerializeStep t = (serialize t, false)) := by
  refine ⟨?_, ?_, ?_, ?_⟩
  · intro s h
    simp [deserialize, h]
  · intro s h
    simp [load_trie, h]
  · intro s h
    simp [writerSelfCheck, h]
  · intro t
    simp [mainSerializeStep, writerSelfCheck, markersOk_serialize t]

theorem artifact_marker_policy_witness :
    markersOk [0, 0] = false
    ∧ deserialize [0, 0] = none
    ∧ load_trie [0, 0] = .error "Error loading trie"
    ∧ writerSelfCheck [0, 0] = ([0, 0], true) :=
  ⟨by decide, artifact_marker_policy.1 [0, 0] (by decide),
   artifact_marker_policy.2.1 [0, 0] (artifact_marker_policy.1 [0, 0] (by decide)),
   artifact_marker_policy.2.2.1 [0, 0] (by decide)⟩

/-- C7: inserting a canonical word into a trie twice yields a tree
indistinguishable under the membership query, for all query strings, from
inserting it once — in fact literally the same tree; insertion is a total
function with no failure path. -/
theorem insert_idempotent (t : TrieNode) (w : Word) (hw : is_pure_alpha w = true) :
    (∀ v : Word, is_in_trie ((t.insert w).insert w) v = is_in_trie (t.insert w) v)
    ∧ (t.insert w).insert w = t.insert w := by
  have h := insert_insert w t
  exact ⟨fun v => by rw [h], h⟩

theorem insert_idempotent_witness :
    is_pure_alpha "cat".toList = true
    ∧ is_in_trie ((TrieNode.empty.insert "cat".toList).insert "cat".toList) "ca".toList
        = is_in_trie (TrieNode.empty.insert "cat".toList) "ca".toList :=
  ⟨by decide, (insert_idempotent TrieNode.empty "cat".toList (by decide)).1 "ca".toList⟩

/-- C8: the membership query is total and never fails — a character with no
matching child yields false, the empty string yields the root's word flag,
and for a trie built from canonical (hence non-empty) words the empty string
yields false. -/
theorem is_in_trie_total_behavior :
    (∀ (t : TrieNode) (c : Char) (cs : Word),
      t.children.lookup c = none → is_in_trie t (c :: cs) = false)
    ∧ (∀ t : TrieNode, is_in_trie t [] = t.is_word)
    ∧ (∀ V : List Word, (∀ w ∈ V, is_pure_alpha w = true) →
        is_in_trie (buildTrie V) [] = false) := by
  refine ⟨?_, ?_, ?_⟩
  · intro t c cs h
    rw [is_in_trie_cons, h]
  · intro t
    rfl
  · intro V hV
    have hnot : ([] : Word) ∉ V := by
      intro hmem
      have := hV [] hmem
      simp [is_pure_alpha] at this
    cases hres : is_in_trie (buildTrie V) [] with
    | false => rfl
    | true => exact absurd ((is_in_trie_buildTrie V []).mp hres) hnot

theorem is_in_trie_total_behavior_witness :
    (buildTrie ["cat".toList]).children.lookup 'z' = none
    ∧ is_in_trie (buildTrie ["cat".toList]) ['z'] = false
    ∧ (∀ w ∈ ["cat".toList], is_pure_alpha w = true)
    ∧ is_in_trie (buildTrie ["cat".toList]) [] = false :=
  ⟨rfl, is_in_trie_total_behavior.1 (buildTrie ["cat".toList]) 'z' [] rfl, by decide,
   is_in_trie_total_behavior.2.2 ["cat".toList] (by decide)⟩

/-- C9: loader failure policy — an error from any of the four required
loaders, or from a supplied-but-failing Moby source, propagates and aborts
aggregation; the local dictionary loader has no failure path and a missing or
empty file contributes the empty word set; an unsupplied Moby source
contributes the empty word set without error. -/
theorem loader_failure_policy :
    (∀ (d s wn wf : Except String (Finset Word)) linuxFile mobyArg,
      (d.isOk = false ∨ s.isOk = false ∨ wn.isOk = false ∨ wf.isOk = false) →
      (runSources d s wn wf linuxFile mobyArg).isOk = false)
    ∧ load_linux_dict_words none = ∅
    ∧ (∀ lines, linuxWordSet lines = ∅ → load_linux_dict_words (some lines) = ∅)
    ∧ load_moby_words none = .ok ∅
    ∧ (∀ (V1 V2 V3 V4 : Finset Word) linuxFile,
        runSources (.ok V1) (.ok V2) (.ok V3) (.ok V4) linuxFile none
          = .ok [V1, V2, V3, V4, load_linux_dict_words linuxFile, ∅])
    ∧ load_moby_words (some none) = .error "Moby loader error: file not found"
    ∧ (∀ lines, mobyCollect lines = ∅ →
        load_moby_words (some (some lines))
          = .error "Moby loader error: no valid words found in Standard English Words section")
    ∧ (∀ (V1 V2 V3 V4 : Finset Word) linuxFile mobyArg e,
        load_moby_words mobyArg = .error e →
        runSources (.ok V1) (.ok V2) (.ok V3) (.ok V4) linuxFile mobyArg = .error e) := by
  refine ⟨?_, rfl, ?_, rfl, ?_, rfl, ?_, ?_⟩
  · intro d s wn wf linuxFile mobyArg hbad
    cases d <;> cases s <;> cases wn <;> cases wf <;>
      simp_all [runSources, Except.isOk, Except.toBool]
  · intro lines h
    simp [load_linux_dict_words, h]
  · intro V1 V2 V3 V4 linuxFile
    simp [runSources, load_moby_words]
  · intro lines h
    simp [load_moby_words, h]
  · intro V1 V2 V3 V4 linuxFile mobyArg e h
    simp [runSources, h]

theorem loader_failure_policy_witness :
    ((Except.error "boom" : Except String (Finset Word)).isOk = false
        ∨ (Except.ok (∅ : Finset Word) : Except String (Finset Word)).isOk = false
        ∨ (Except.ok (∅ : Finset Word) : Except String (Finset Word)).isOk = false
        ∨ (Except.ok (∅ : Finset Word) : Except String (Finset Word)).isOk = false)
    ∧ (runSources (.error "boom") (.ok ∅) (.ok ∅) (.ok ∅) none none).isOk = false
    ∧ linuxWordSet [] = ∅
    ∧ load_linux_dict_words (some []) = ∅
    ∧ mobyCollect [] = ∅
    ∧ load_moby_words (some (some []))
        = .error "Moby loader error: no valid words found in Standard English Words section"
    ∧ load_moby_words (some none) = .error "Moby loader error: file not found"
    ∧ runSources (.ok ∅) (.ok ∅) (.ok ∅) (.ok ∅) none (some none)
        = .error "Moby loader error: file not found" :=
  ⟨Or.inl (by decide),
   loader_failure_policy.1 (.error "boom") (.ok ∅) (.ok ∅) (.ok ∅) none none (Or.inl (by decide)),
   by decide,
   loader_failure_policy.2.2.1 [] (by decide),
   by decide,
   loader_failure_policy.2.2.2.2.2.2.1 [] (by decide),
   rfl,
   loader_failure_policy.2.2.2.2.2.2.2 ∅ ∅ ∅ ∅ none (some none)
     "Moby loader error: file not found" rfl⟩

/-- C10: insertion changes the membership answer only at the inserted word —
for every other query string the answer after inserting a canonical word
equals the answer before. -/
theorem insert_frame (t : TrieNode) (w v : Word) (hw : is_pure_alpha w = true)
    (hne : v ≠ w) : is_in_trie (t.insert w) v = is_in_trie t v := by
  have h := is_in_trie_insert w t v
  cases hres : is_in_trie t v with
  | true =>
    exact h.mpr (Or.inr hres)
  | false =>
    cases hl : is_in_trie (t.insert w) v with
    | false => rfl
    | true =>
      rcases h.mp hl with h1 | h1
      · exact absurd h1 hne
      · rw [hres] at h1
        exact absurd h1 (by simp)

theorem insert_frame_witness :
    is_pure_alpha "cat".toList = true
    ∧ "ca".toList ≠ "cat".toList
    ∧ is_in_trie (TrieNode.empty.insert "cat".toList) "ca".toList
        = is_in_trie TrieNode.empty "ca".toList :=
  ⟨by decide, by decide,
   insert_frame TrieNode.empty "cat".toList "ca".toList (by decide) (by decide)⟩
